import Mathlib

/-!
Verification of the deepboard replicated board engine.

The board data model and the `Store` edit pipeline are translated from
`model.go` and `store.go`.  The CRDT substrate (`github.com/brunoga/deep/v3/crdt`:
hybrid logical clocks, the text CRDT, delta production and application, and
full-state merge) is not part of this repository; those definitions are
modelled from the specification (sections 4.1-4.3) and are marked as such.
-/

namespace Deepboard

/-- Modelled from the spec: `HybridClock` is a pair `(counter, nodeID)`,
totally ordered lexicographically by `(counter, nodeID)` (spec section 4.1). -/
structure HLC where
  counter : Nat
  nodeID : String
deriving DecidableEq, Repr

/-- The lexicographic embedding of a hybrid clock. -/
def HLC.key (h : HLC) : Nat ×ₗ String := toLex (h.counter, h.nodeID)

def HLC.key_inj : Function.Injective HLC.key := by
  intro a b h
  cases a; cases b
  simpa [HLC.key, Prod.ext_iff] using h

instance : LinearOrder HLC := LinearOrder.lift' HLC.key HLC.key_inj

/-- Decidable comparison agreeing with the lexicographic order. -/
def HLC.ltb (a b : HLC) : Bool :=
  a.counter < b.counter || (a.counter == b.counter && a.nodeID < b.nodeID)

/-- Modelled from the spec: advancing the clock on a local operation. -/
def HLC.tick (h : HLC) : HLC := ⟨h.counter + 1, h.nodeID⟩

/-- Modelled from the spec: `observe(remote)` sets
`counter ← max(counter, remote.counter) + 1` (spec section 4.1). -/
def HLC.observe (h : HLC) (remote : HLC) : HLC :=
  ⟨Nat.max h.counter remote.counter + 1, h.nodeID⟩

/-- The zero clock used for freshly initialised register timestamps. -/
def hlc0 : HLC := ⟨0, ""⟩

/-- Modelled from the spec: an atom of the text CRDT, a clock id paired with
its payload string (spec section 3, `TextCRDT`; the seed board stores a whole
sentence in one atom, so the payload is a string, as in `crdt.Text`). -/
structure Atom where
  id : HLC
  value : String
deriving DecidableEq, Repr

def Atom.key (a : Atom) : HLC ×ₗ String := toLex (a.id, a.value)

def Atom.key_inj : Function.Injective Atom.key := by
  intro a b h
  cases a; cases b
  simpa [Atom.key, Prod.ext_iff] using h

instance : LinearOrder Atom := LinearOrder.lift' Atom.key Atom.key_inj

/-- `crdt.Text`: a sequence of atoms; the visible string is the concatenation
of the atom values in sequence order. -/
abbrev TextT := List Atom

/-- `Text.String()`: concatenation of atom values in sequence order. -/
def textString (t : TextT) : String := String.join (t.map Atom.value)

/-- Modelled from the spec: `insert(pos, text, clock)` consumes one clock tick
per inserted atom and splices the new atoms in at the visible position
(spec section 4.2). -/
def textInsert (t : TextT) (pos : Nat) (val : String) (clock : HLC) : TextT :=
  let fresh := val.data.mapIdx
    (fun i c => Atom.mk ⟨clock.counter + 1 + i, clock.nodeID⟩ (String.mk [c]))
  t.take pos ++ fresh ++ t.drop pos

/-- Modelled from the spec: `delete(pos, length)` removes `length` atoms
starting at visible position `pos` (spec section 4.2). -/
def textDelete (t : TextT) (pos len : Nat) : TextT :=
  t.take pos ++ t.drop (pos + len)

/-- The set of atoms of a text. -/
def textFin (t : TextT) : Finset Atom := t.toFinset

/-- A finite set of atoms listed in id order. -/
def textSorted (s : Finset Atom) : TextT := s.sort (· ≤ ·)

/-- Modelled from the spec: `merge(other)` is the union of atoms; when one
side's atoms contain the other's the dominating sequence is kept in its stable
order, otherwise the union is reconstructed in id order (spec section 4.2). -/
def textMerge (a b : TextT) : TextT :=
  if a = b then a
  else if textFin b ⊂ textFin a then a
  else if textFin a ⊂ textFin b then b
  else textSorted (textFin a ∪ textFin b)

/-- `Column` from `model.go`. -/
structure Column where
  id : String
  title : String
deriving DecidableEq, Repr

def Column.key (c : Column) : String ×ₗ String := toLex (c.id, c.title)

def Column.key_inj : Function.Injective Column.key := by
  intro a b h
  cases a; cases b
  simpa [Column.key, Prod.ext_iff] using h

instance : LinearOrder Column := LinearOrder.lift' Column.key Column.key_inj

/-- `Card` from `model.go`: the value stored in the board's card map. -/
structure Card where
  id : String
  title : String
  description : TextT
  assignee : String
  columnID : String
  order : ℚ
deriving DecidableEq, Repr

/-- `NodeConnection` from `model.go`. -/
structure NodeConnection where
  nodeID : String
  count : Int
deriving DecidableEq, Repr

/-- `Board` from `model.go`.  The Go card map may be `nil`, which `AddCard`
distinguishes from an empty map, so the card collection is an optional
association list. -/
structure Board where
  id : String
  title : String
  columns : List Column
  cards : Option (List (String × Card))
deriving DecidableEq, Repr

/-- `BoardState` from `model.go`: the top-level structure wrapped in a CRDT. -/
structure BoardState where
  board : Board
  nodeConnections : List NodeConnection
deriving DecidableEq, Repr

/-- `WSMessage` from `model.go`, restricted to the fields the engine sets on
refresh broadcasts. -/
structure WSMessage where
  type : String
  silent : Bool
deriving DecidableEq, Repr

/-- `NewInitialBoard` from `model.go`. -/
def NewInitialBoard : BoardState :=
  { board :=
    { id := "main-board"
      title := "DeepBoard Kanban"
      columns :=
        [ ⟨"todo", "To Do"⟩
        , ⟨"in-progress", "In Progress"⟩
        , ⟨"done", "Done"⟩ ]
      cards := some
        [ ("card-1",
           { id := "card-1"
             title := "Try Deep Library"
             description := [⟨⟨0, "system"⟩, "Explore the features of the deep library."⟩]
             assignee := ""
             columnID := "todo"
             order := 1000 }) ] }
    nodeConnections := [] }

/-- The sample card seeded by `NewInitialBoard`. -/
def seedCard : Card :=
  { id := "card-1"
    title := "Try Deep Library"
    description := [⟨⟨0, "system"⟩, "Explore the features of the deep library."⟩]
    assignee := ""
    columnID := "todo"
    order := 1000 }

/-! ### Association-list helpers (the Go map keyed by card id) -/

/-- First value bound to `k`, like a Go map lookup. -/
def findVal (l : List (String × α)) (k : String) : Option α :=
  match l with
  | [] => none
  | (k', v) :: tl => if k' = k then some v else findVal tl k

/-- Go map assignment: replace the first binding of `k`, or append one. -/
def setVal (l : List (String × α)) (k : String) (v : α) : List (String × α) :=
  match l with
  | [] => [(k, v)]
  | (k', v') :: tl => if k' = k then (k, v) :: tl else (k', v') :: setVal tl k v

/-- Go `delete` on a map: drop every binding of `k`. -/
def delVal (l : List (String × α)) (k : String) : List (String × α) :=
  l.filter (fun p => p.1 ≠ k)

/-- The keys of an association list. -/
def keysOf (l : List (String × α)) : List String := l.map Prod.fst

/-! ### The board CRDT, modelled from spec section 4.3

`BoardCRDT` owns a `BoardState`, a clock, and "the metadata required to
compute and apply deltas".  The metadata is modelled as a last-writer-wins
timestamp per scalar field (spec: "Scalars: last-write-wins by delta
timestamp"), keyed per card / per connection for the keyed collections, and
no timestamp for text fields (they merge by atom union). -/

/-- Modelled from the spec: a last-write-wins register, a value together with
the timestamp of the write that produced it. -/
structure Reg (α : Type) where
  ts : HLC
  val : α
deriving DecidableEq

/-- The register form of a card: one LWW register per scalar field, and the
raw atom sequence for the collaborative description. -/
structure CardR where
  idf : Reg String
  title : Reg String
  assignee : Reg String
  columnID : Reg String
  order : Reg ℚ
  desc : TextT
deriving DecidableEq

/-- Modelled from the spec: the full `BoardCRDT` replica state: clock plus
registered board fields, cards keyed by id and connections keyed by node id. -/
structure CRDTR where
  clock : HLC
  bid : Reg String
  btitle : Reg String
  cols : Reg (List Column)
  cards : List (String × CardR)
  ncs : List (String × Reg Int)
deriving DecidableEq

/-- Everything except the clock: the data compared to decide whether an
apply/merge changed the replica. -/
structure Parts where
  bid : Reg String
  btitle : Reg String
  cols : Reg (List Column)
  cards : List (String × CardR)
  ncs : List (String × Reg Int)
deriving DecidableEq

def partsOf (c : CRDTR) : Parts :=
  ⟨c.bid, c.btitle, c.cols, c.cards, c.ncs⟩

def viewCard (c : CardR) : Card :=
  { id := c.idf.val, title := c.title.val, description := c.desc,
    assignee := c.assignee.val, columnID := c.columnID.val, order := c.order.val }

/-- `view()`: the plain `BoardState` snapshot of a replica (spec 4.3). -/
def viewOf (c : CRDTR) : BoardState :=
  { board := { id := c.bid.val, title := c.btitle.val, columns := c.cols.val,
               cards := some (c.cards.map (fun p => (p.1, viewCard p.2))) },
    nodeConnections := c.ncs.map (fun p => ⟨p.1, p.2.val⟩) }

/-- A freshly written card register block, every field stamped `ts`. -/
def cardRof (ts : HLC) (c : Card) : CardR :=
  { idf := ⟨ts, c.id⟩, title := ⟨ts, c.title⟩, assignee := ⟨ts, c.assignee⟩,
    columnID := ⟨ts, c.columnID⟩, order := ⟨ts, c.order⟩, desc := c.description }

/-- The card collection of a state; the Go `nil` map reads as empty. -/
def cardsOf (bs : BoardState) : List (String × Card) := bs.board.cards.getD []

/-- `crdt.NewCRDT(initial, nodeID)`: wrap a seed state, all registers at the
zero timestamp, clock owned by `nodeID`. -/
def mkCRDT (init : BoardState) (nodeID : String) : CRDTR :=
  { clock := ⟨0, nodeID⟩,
    bid := ⟨hlc0, init.board.id⟩, btitle := ⟨hlc0, init.board.title⟩,
    cols := ⟨hlc0, init.board.columns⟩,
    cards := (cardsOf init).map (fun p => (p.1, cardRof hlc0 p.2)),
    ncs := init.nodeConnections.map (fun nc => (nc.nodeID, ⟨hlc0, nc.count⟩)) }

/-! ### Patches: the value-level change set of a delta (spec section 4.3) -/

/-- One field-level change inside a patch. -/
inductive Entry where
  | bId (v : String)
  | bTitle (v : String)
  | bCols (v : List Column)
  | cardAdd (k : String) (c : Card)
  | cardRemove (k : String)
  | cardId (k : String) (v : String)
  | cardTitle (k : String) (v : String)
  | cardAssignee (k : String) (v : String)
  | cardColumnID (k : String) (v : String)
  | cardOrder (k : String) (v : ℚ)
  | cardDesc (k : String) (v : TextT)
  | ncSet (k : String) (v : Int)
  | ncRemove (k : String)
deriving DecidableEq

/-- The textual tag naming the field an entry touches, as in the summaries
`"board.title"` / `"nodeConnections[node-1].count"` (spec glossary). -/
def entryPath : Entry → String
  | .bId _ => "board.id"
  | .bTitle _ => "board.title"
  | .bCols _ => "board.columns"
  | .cardAdd k _ => "board.cards[" ++ k ++ "]"
  | .cardRemove k => "board.cards[" ++ k ++ "]"
  | .cardId k _ => "board.cards[" ++ k ++ "].id"
  | .cardTitle k _ => "board.cards[" ++ k ++ "].title"
  | .cardAssignee k _ => "board.cards[" ++ k ++ "].assignee"
  | .cardColumnID k _ => "board.cards[" ++ k ++ "].columnID"
  | .cardOrder k _ => "board.cards[" ++ k ++ "].order"
  | .cardDesc k _ => "board.cards[" ++ k ++ "].description"
  | .ncSet k _ => "nodeConnections[" ++ k ++ "].count"
  | .ncRemove k => "nodeConnections[" ++ k ++ "]"

/-- Is the entry a presence/connection-count change? -/
def Entry.isNc : Entry → Bool
  | .ncSet _ _ => true
  | .ncRemove _ => true
  | _ => false

/-- `Patch.Summary()`: the comma-joined field tags of the patch. -/
def patchSummary : List Entry → String
  | [] => ""
  | [e] => entryPath e
  | e :: tl => entryPath e ++ ", " ++ patchSummary tl

/-- `Delta` (spec section 3): a timestamp plus an optional value-level patch;
an absent patch means the producing mutator changed nothing. -/
structure Delta where
  timestamp : HLC
  patch : Option (List Entry)
deriving DecidableEq

/-- Summary of a delta (empty for an empty patch). -/
def deltaSummary (d : Delta) : String :=
  match d.patch with
  | none => ""
  | some es => patchSummary es

/-- Does the character list `pat` start the character list `l`? -/
def chStarts : List Char → List Char → Bool
  | [], _ => true
  | _ :: _, [] => false
  | p :: ps, c :: cs => p == c && chStarts ps cs

/-- Does the character list `l` contain `pat` as a contiguous run? -/
def chHas (pat : List Char) (l : List Char) : Bool :=
  match l with
  | [] => chStarts pat []
  | _ :: cs => chStarts pat l || chHas pat cs

/-- Go's `strings.Contains(s, pat)`. -/
def strContainsGo (s pat : String) : Bool := chHas pat.data s.data

/-! ### Diff: the value-level change set between two snapshots -/

def catMap (f : α → List β) : List α → List β
  | [] => []
  | a :: l => f a ++ catMap f l

def cardFieldDiff (k : String) (o n : Card) : List Entry :=
  (if n.id ≠ o.id then [.cardId k n.id] else []) ++
  (if n.title ≠ o.title then [.cardTitle k n.title] else []) ++
  (if n.assignee ≠ o.assignee then [.cardAssignee k n.assignee] else []) ++
  (if n.columnID ≠ o.columnID then [.cardColumnID k n.columnID] else []) ++
  (if n.order ≠ o.order then [.cardOrder k n.order] else []) ++
  (if n.description ≠ o.description then [.cardDesc k n.description] else [])

def cardKeyDiff (o n : List (String × Card)) (k : String) : List Entry :=
  match findVal o k, findVal n k with
  | none, none => []
  | none, some c => [.cardAdd k c]
  | some _, none => [.cardRemove k]
  | some co, some cn => cardFieldDiff k co cn

def cardsDiff (o n : List (String × Card)) : List Entry :=
  catMap (cardKeyDiff o n) (keysOf o ++ keysOf n).dedup

/-- First connection entry for a node id, like the Go scan over the slice. -/
def ncFind (l : List NodeConnection) (k : String) : Option Int :=
  match l with
  | [] => none
  | nc :: tl => if nc.nodeID = k then some nc.count else ncFind tl k

def ncKeys (l : List NodeConnection) : List String := l.map NodeConnection.nodeID

def ncKeyDiff (o n : List NodeConnection) (k : String) : List Entry :=
  match ncFind o k, ncFind n k with
  | none, none => []
  | none, some v => [.ncSet k v]
  | some _, none => [.ncRemove k]
  | some vo, some vn => if vn ≠ vo then [.ncSet k vn] else []

def ncDiff (o n : List NodeConnection) : List Entry :=
  catMap (ncKeyDiff o n) (ncKeys o ++ ncKeys n).dedup

/-- Modelled from the spec: the value-level diff `edit` computes between the
previous snapshot and the mutated one (spec 4.3); keyed collections diff
per key, scalar fields and the column list as whole values. -/
def diffViews (o n : BoardState) : List Entry :=
  (if n.board.id ≠ o.board.id then [.bId n.board.id] else []) ++
  (if n.board.title ≠ o.board.title then [.bTitle n.board.title] else []) ++
  (if n.board.columns ≠ o.board.columns then [.bCols n.board.columns] else []) ++
  cardsDiff (cardsOf o) (cardsOf n) ++
  ncDiff o.nodeConnections n.nodeConnections

/-! ### Edit and apply (spec section 4.3) -/

/-- Re-stamp a register: an unchanged value keeps its timestamp, a changed
value is stamped with the edit's timestamp. -/
def stampReg [DecidableEq α] (r : Reg α) (v : α) (ts : HLC) : Reg α :=
  if v = r.val then r else ⟨ts, v⟩

def stampCard (old : Option CardR) (c : Card) (ts : HLC) : CardR :=
  match old with
  | none => cardRof ts c
  | some o =>
    { idf := stampReg o.idf c.id ts, title := stampReg o.title c.title ts,
      assignee := stampReg o.assignee c.assignee ts,
      columnID := stampReg o.columnID c.columnID ts,
      order := stampReg o.order c.order ts, desc := c.description }

def stampCards (old : List (String × CardR)) (nw : List (String × Card)) (ts : HLC) :
    List (String × CardR) :=
  nw.map (fun p => (p.1, stampCard (findVal old p.1) p.2 ts))

def stampNCs (old : List (String × Reg Int)) (nw : List NodeConnection) (ts : HLC) :
    List (String × Reg Int) :=
  nw.map (fun nc => (nc.nodeID,
    match findVal old nc.nodeID with
    | some r => stampReg r nc.count ts
    | none => (⟨ts, nc.count⟩ : Reg Int)))

/-- Modelled from the spec: `edit(mutator)` applies the mutator to a working
copy, diffs against the previous snapshot, and on a non-empty diff ticks the
clock, stamps the changed registers and swaps the new state in; a no-change
mutator returns a delta with an empty patch (spec 4.3). -/
def crdtEdit (fn : BoardState → BoardState) (c : CRDTR) : CRDTR × Delta :=
  let o := viewOf c
  let n := fn o
  let es := diffViews o n
  if es = [] then (c, ⟨c.clock, none⟩)
  else
    let ts := c.clock.tick
    ({ clock := ts
       bid := stampReg c.bid n.board.id ts
       btitle := stampReg c.btitle n.board.title ts
       cols := stampReg c.cols n.board.columns ts
       cards := stampCards c.cards (cardsOf n) ts
       ncs := stampNCs c.ncs n.nodeConnections ts },
     ⟨ts, some es⟩)

/-- Has the register not been superseded by a write at or after `ts`? -/
def regGate (r : Reg α) (ts : HLC) : Bool := decide (r.ts < ts)

def cardGate (c : CardR) (ts : HLC) : Bool :=
  regGate c.idf ts && regGate c.title ts && regGate c.assignee ts &&
  regGate c.columnID ts && regGate c.order ts

/-- Modelled from the spec: a delta applies only "if its timestamp has not
been superseded for every field it touches" (spec 4.3); text entries merge
unconditionally. -/
def entryGate (c : CRDTR) (ts : HLC) : Entry → Bool
  | .bId _ => regGate c.bid ts
  | .bTitle _ => regGate c.btitle ts
  | .bCols _ => regGate c.cols ts
  | .cardAdd k _ =>
    match findVal c.cards k with
    | none => true
    | some cr => cardGate cr ts
  | .cardRemove k =>
    match findVal c.cards k with
    | none => true
    | some cr => cardGate cr ts
  | .cardId k _ =>
    match findVal c.cards k with
    | none => true
    | some cr => regGate cr.idf ts
  | .cardTitle k _ =>
    match findVal c.cards k with
    | none => true
    | some cr => regGate cr.title ts
  | .cardAssignee k _ =>
    match findVal c.cards k with
    | none => true
    | some cr => regGate cr.assignee ts
  | .cardColumnID k _ =>
    match findVal c.cards k with
    | none => true
    | some cr => regGate cr.columnID ts
  | .cardOrder k _ =>
    match findVal c.cards k with
    | none => true
    | some cr => regGate cr.order ts
  | .cardDesc _ _ => true
  | .ncSet k _ =>
    match findVal c.ncs k with
    | none => true
    | some r => regGate r ts
  | .ncRemove k =>
    match findVal c.ncs k with
    | none => true
    | some r => regGate r ts

/-- Update the card register block at `k`, if present. -/
def modCard (l : List (String × CardR)) (k : String) (f : CardR → CardR) :
    List (String × CardR) :=
  match findVal l k with
  | none => l
  | some cr => setVal l k (f cr)

def applyEntry (ts : HLC) (c : CRDTR) : Entry → CRDTR
  | .bId v => { c with bid := ⟨ts, v⟩ }
  | .bTitle v => { c with btitle := ⟨ts, v⟩ }
  | .bCols v => { c with cols := ⟨ts, v⟩ }
  | .cardAdd k card => { c with cards := setVal c.cards k (cardRof ts card) }
  | .cardRemove k => { c with cards := delVal c.cards k }
  | .cardId k v => { c with cards := modCard c.cards k (fun cr => { cr with idf := ⟨ts, v⟩ }) }
  | .cardTitle k v => { c with cards := modCard c.cards k (fun cr => { cr with title := ⟨ts, v⟩ }) }
  | .cardAssignee k v =>
    { c with cards := modCard c.cards k (fun cr => { cr with assignee := ⟨ts, v⟩ }) }
  | .cardColumnID k v =>
    { c with cards := modCard c.cards k (fun cr => { cr with columnID := ⟨ts, v⟩ }) }
  | .cardOrder k v => { c with cards := modCard c.cards k (fun cr => { cr with order := ⟨ts, v⟩ }) }
  | .cardDesc k atoms =>
    { c with cards := modCard c.cards k (fun cr => { cr with desc := textMerge cr.desc atoms }) }
  | .ncSet k v => { c with ncs := setVal c.ncs k ⟨ts, v⟩ }
  | .ncRemove k => { c with ncs := delVal c.ncs k }

/-- Modelled from the spec: `applyDelta(d)` applies the patch when its
timestamp is unsuperseded for every touched field, observes the timestamp on
the clock, and reports whether the local state changed (spec 4.3). -/
def crdtApply (d : Delta) (c : CRDTR) : CRDTR × Bool :=
  match d.patch with
  | none => (c, false)
  | some es =>
    if es.all (entryGate c d.timestamp) then
      let c' := es.foldl (applyEntry d.timestamp) c
      ({ c' with clock := c.clock.observe d.timestamp }, decide (viewOf c' ≠ viewOf c))
    else (c, false)

/-! ### The Store edit pipeline, from `store.go` -/

/-- One row of the `patches` table (`savePatch` stores the delta timestamp
and the patch summary). -/
structure PatchRow where
  timestamp : HLC
  summary : String
deriving DecidableEq

/-- The `Store` state: the CRDT replica plus the persistence slot, the patch
log, the subscriber set, and ghost logs of the broadcasts, closed channels
and peer pushes the store has issued. -/
structure StoreM where
  nodeID : String
  crdt : CRDTR
  stateSlot : Option CRDTR
  patches : List PatchRow
  subs : List Nat
  nextCh : Nat
  lastCount : Int
  broadcasts : List WSMessage
  closed : List Nat
  pushes : List Delta
deriving DecidableEq

namespace StoreM

/-- `Store.Edit`: run the mutator through the CRDT; on a non-empty patch save
state, append the patch row, broadcast a non-silent refresh and push the
delta to peers; return the delta. -/
def Edit (fn : BoardState → BoardState) (s : StoreM) : StoreM × Delta :=
  match (crdtEdit fn s.crdt).2.patch with
  | none => ({ s with crdt := (crdtEdit fn s.crdt).1 }, (crdtEdit fn s.crdt).2)
  | some _ =>
    ({ s with
        crdt := (crdtEdit fn s.crdt).1
        stateSlot := some (crdtEdit fn s.crdt).1
        patches := s.patches ++
          [⟨(crdtEdit fn s.crdt).2.timestamp, deltaSummary (crdtEdit fn s.crdt).2⟩]
        broadcasts := s.broadcasts ++ [⟨"refresh", false⟩]
        pushes := s.pushes ++ [(crdtEdit fn s.crdt).2] }, (crdtEdit fn s.crdt).2)

/-- `Store.SilentEdit`: same pipeline but no patch row and a silent refresh. -/
def SilentEdit (fn : BoardState → BoardState) (s : StoreM) : StoreM :=
  match (crdtEdit fn s.crdt).2.patch with
  | none => { s with crdt := (crdtEdit fn s.crdt).1 }
  | some _ =>
    { s with
        crdt := (crdtEdit fn s.crdt).1
        stateSlot := some (crdtEdit fn s.crdt).1
        broadcasts := s.broadcasts ++ [⟨"refresh", true⟩]
        pushes := s.pushes ++ [(crdtEdit fn s.crdt).2] }

/-- `Store.ApplyDelta`: apply a remote delta; on change save state, append the
patch row and broadcast a refresh that is silent iff the summary contains
`"nodeConnections"`. -/
def ApplyDelta (d : Delta) (s : StoreM) : StoreM :=
  if (crdtApply d s.crdt).2 then
    { s with
        crdt := (crdtApply d s.crdt).1
        stateSlot := some (crdtApply d s.crdt).1
        patches := s.patches ++ [⟨d.timestamp, deltaSummary d⟩]
        broadcasts := s.broadcasts ++
          [⟨"refresh", strContainsGo (deltaSummary d) "nodeConnections"⟩] }
  else { s with crdt := (crdtApply d s.crdt).1 }

/-- The Go loop in `updateConnectionsLocked`'s mutator: set the count on the
first entry owned by `nid`, or append a new entry. -/
def ncSetList (l : List NodeConnection) (nid : String) (cnt : Int) : List NodeConnection :=
  match l with
  | [] => [⟨nid, cnt⟩]
  | nc :: tl => if nc.nodeID = nid then ⟨nid, cnt⟩ :: tl else nc :: ncSetList tl nid cnt

def connMutator (nid : String) (cnt : Int) (bs : BoardState) : BoardState :=
  { bs with nodeConnections := ncSetList bs.nodeConnections nid cnt }

/-- `Store.updateConnectionsLocked`: a direct CRDT edit that saves state,
broadcasts a silent refresh and pushes the delta, but never appends a patch
row. -/
def updateConnectionsLocked (count : Int) (s : StoreM) : StoreM :=
  match (crdtEdit (connMutator s.nodeID count) s.crdt).2.patch with
  | none => { s with crdt := (crdtEdit (connMutator s.nodeID count) s.crdt).1 }
  | some _ =>
    { s with
        crdt := (crdtEdit (connMutator s.nodeID count) s.crdt).1
        stateSlot := some (crdtEdit (connMutator s.nodeID count) s.crdt).1
        broadcasts := s.broadcasts ++ [⟨"refresh", true⟩]
        pushes := s.pushes ++ [(crdtEdit (connMutator s.nodeID count) s.crdt).2] }

/-- `Store.Subscribe`: register a fresh channel, record the new count and run
the silent connection-count update. -/
def Subscribe (s : StoreM) : StoreM × Nat :=
  let ch := s.nextCh
  let subs' := s.subs ++ [ch]
  let s' := { s with
                subs := subs'
                nextCh := ch + 1
                lastCount := (subs'.length : Int) }
  (s'.updateConnectionsLocked (subs'.length : Int), ch)

/-- `Store.Unsubscribe`: an unregistered handle returns immediately; a
registered one is deregistered and closed, and the count is updated. -/
def Unsubscribe (ch : Nat) (s : StoreM) : StoreM :=
  if ch ∈ s.subs then
    let subs' := s.subs.erase ch
    let s' := { s with
                  subs := subs'
                  closed := s.closed ++ [ch]
                  lastCount := (subs'.length : Int) }
    s'.updateConnectionsLocked (subs'.length : Int)
  else s

end StoreM

/-- `NewStore` on a path with no persisted state: seed the CRDT, save it,
then run the initial connection-count update. -/
def NewStore (nodeID : String) : StoreM :=
  let c0 := mkCRDT NewInitialBoard nodeID
  let s0 : StoreM :=
    { nodeID := nodeID, crdt := c0, stateSlot := some c0, patches := [],
      subs := [], nextCh := 0, lastCount := -1, broadcasts := [], closed := [],
      pushes := [] }
  s0.updateConnectionsLocked 0

namespace StoreM

/-- The Go `maxOrder` scan: the largest order strictly above `0` among the
cards of column `col`, `0` otherwise. -/
def maxOrderGo (cards : List (String × Card)) (col : String) : ℚ :=
  cards.foldl (fun acc p => if p.2.columnID = col ∧ acc < p.2.order then p.2.order else acc) 0

def addCardMutator (id title : String) (bs : BoardState) : BoardState :=
  let cards0 := bs.board.cards.getD []
  let mo := maxOrderGo cards0 "todo"
  { bs with board := { bs.board with cards := some (setVal cards0 id
      { id := id, title := title, description := [], assignee := "",
        columnID := "todo", order := mo + 1000 }) } }

/-- `Store.AddCard` with the generated UUID passed in as `id`. -/
def AddCard (id title : String) (s : StoreM) : StoreM × String :=
  ((s.Edit (addCardMutator id title)).1, id)

def moveCardMutator (cardID fromCol toCol : String) (toIndex : Int) (bs : BoardState) :
    BoardState :=
  match bs.board.cards with
  | none => bs
  | some cards =>
    match findVal cards cardID with
    | none => bs
    | some card =>
      let mo := maxOrderGo cards toCol
      { bs with board := { bs.board with cards := some (setVal cards cardID
          { card with columnID := toCol, order := mo + 1000 }) } }

def MoveCard (cardID fromCol toCol : String) (toIndex : Int) (s : StoreM) : StoreM :=
  (s.Edit (moveCardMutator cardID fromCol toCol toIndex)).1

def textOpMutator (cardID op val : String) (pos len : Nat) (clock : HLC)
    (bs : BoardState) : BoardState :=
  match bs.board.cards with
  | none => bs
  | some cards =>
    match findVal cards cardID with
    | none => bs
    | some card =>
      let desc' :=
        if op = "insert" then textInsert card.description pos val clock
        else if op = "delete" then textDelete card.description pos len
        else card.description
      let cards' := setVal cards cardID { card with description := desc' }
      { bs with board := { bs.board with cards := some cards' } }

def UpdateCardText (cardID op val : String) (pos len : Nat) (s : StoreM) : StoreM :=
  (s.Edit (textOpMutator cardID op val pos len s.crdt.clock)).1

def deleteCardMutator (cardID : String) (bs : BoardState) : BoardState :=
  match bs.board.cards with
  | none => bs
  | some cards =>
    { bs with board := { bs.board with cards := some (delVal cards cardID) } }

def DeleteCard (cardID : String) (s : StoreM) : StoreM :=
  (s.Edit (deleteCardMutator cardID)).1

end StoreM

/-! ### Full-state merge (spec sections 4.3 and 8)

Merge is the idempotent commutative combine of two full replica states:
scalar registers resolve last-write-wins by timestamp (tie-broken
deterministically so that forged equal-timestamp registers still combine
symmetrically), keyed collections take the union with a per-key combine
listing keys in canonical order, and text fields merge by atom union. -/

/-- Modelled from the spec: last-write-wins combine of two registers. -/
def regMerge [LinearOrder α] (a b : Reg α) : Reg α :=
  if a.ts < b.ts then b else if b.ts < a.ts then a else ⟨a.ts, max a.val b.val⟩

/-- Field-wise merge of two card register blocks. -/
def cardMerge (a b : CardR) : CardR :=
  { idf := regMerge a.idf b.idf, title := regMerge a.title b.title,
    assignee := regMerge a.assignee b.assignee,
    columnID := regMerge a.columnID b.columnID,
    order := regMerge a.order b.order, desc := textMerge a.desc b.desc }

def keysFin (l : List (String × α)) : Finset String := (keysOf l).toFinset

/-- Per-key combine of two optional values: union semantics, combining when
both sides carry the key. -/
def mergeOpt (mv : β → β → β) : Option β → Option β → Option β
  | some x, some y => some (mv x y)
  | some x, none => some x
  | none, some y => some y
  | none, none => none

/-- Union of two keyed collections with a per-key combine, keys listed in
canonical (sorted) order. -/
def mergeKeyed (mv : β → β → β) (a b : List (String × β)) : List (String × β) :=
  ((keysFin a ∪ keysFin b).sort (· ≤ ·)).filterMap (fun k =>
    (mergeOpt mv (findVal a k) (findVal b k)).map (fun v => (k, v)))

/-- Modelled from the spec: `merge(other)`, the commutative idempotent
combine of two full states (spec 4.3). -/
def mergeCRDT (a b : CRDTR) : CRDTR :=
  { clock := max a.clock b.clock,
    bid := regMerge a.bid b.bid, btitle := regMerge a.btitle b.btitle,
    cols := regMerge a.cols b.cols,
    cards := mergeKeyed cardMerge a.cards b.cards,
    ncs := mergeKeyed regMerge a.ncs b.ncs }

/-- `Store.Merge`: merge a remote replica; on change save state and broadcast
a non-silent refresh; return whether the local state changed. -/
def StoreM.Merge (other : CRDTR) (s : StoreM) : StoreM × Bool :=
  if partsOf (mergeCRDT s.crdt other) = partsOf s.crdt then (s, false)
  else
    ({ s with
         crdt := mergeCRDT s.crdt other
         stateSlot := some (mergeCRDT s.crdt other)
         broadcasts := s.broadcasts ++ [⟨"refresh", false⟩] }, true)

/-- A replica in canonical form: its keyed collections list their keys in
strictly sorted order (every replica assembled by `mergeKeyed` is such). -/
def Canonical (c : CRDTR) : Prop :=
  (keysOf c.cards).Sorted (· < ·) ∧ (keysOf c.ncs).Sorted (· < ·)

instance (c : CRDTR) : Decidable (Canonical c) := by
  unfold Canonical
  infer_instance

/-- Presence-churn scenario (spec section 8, scenario 6): a fresh node. -/
def presenceS0 : StoreM := NewStore "node-1"

/-- First subscription on the fresh node. -/
def presenceR1 : StoreM × Nat := presenceS0.Subscribe

/-- Second subscription. -/
def presenceR2 : StoreM × Nat := presenceR1.1.Subscribe

/-- First unsubscribe (the second channel). -/
def presenceU1 : StoreM := presenceR2.1.Unsubscribe presenceR2.2

/-- Second unsubscribe (the first channel). -/
def presenceU2 : StoreM := presenceU1.Unsubscribe presenceR1.2

/-- Two snapshots are extensionally equal when they agree on every scalar
field, on the column list, and on every key of the keyed collections (the Go
nil map equals the empty map, and keyed collections compare per key). -/
def StateEquiv (o n : BoardState) : Prop :=
  o.board.id = n.board.id ∧ o.board.title = n.board.title ∧
  o.board.columns = n.board.columns ∧
  (∀ k ∈ keysOf (cardsOf o) ++ keysOf (cardsOf n),
     findVal (cardsOf o) k = findVal (cardsOf n) k) ∧
  (∀ k ∈ ncKeys o.nodeConnections ++ ncKeys n.nodeConnections,
     ncFind o.nodeConnections k = ncFind n.nodeConnections k)

instance (o n : BoardState) : Decidable (StateEquiv o n) := by
  unfold StateEquiv
  infer_instance

/-- The canonical form of a snapshot as reconstructed by the edit pipeline:
identical except that an absent card map reads as the empty one. -/
def canonV (v : BoardState) : BoardState :=
  { board := { v.board with cards := some (cardsOf v) },
    nodeConnections := v.nodeConnections }

/-! ### Diff lemmas -/

theorem findVal_setVal (l : List (String × α)) (k : String) (v : α) :
    findVal (setVal l k v) k = some v := by
  induction l with
  | nil => simp [setVal, findVal]
  | cons hd tl ih =>
    obtain ⟨k', v'⟩ := hd
    by_cases h : k' = k
    · simp [setVal, h, findVal]
    · simp [setVal, h, findVal, ih]

theorem findVal_eq_none_of_not_mem (l : List (String × α)) (k : String)
    (h : k ∉ keysOf l) : findVal l k = none := by
  induction l with
  | nil => rfl
  | cons hd tl ih =>
    obtain ⟨k', v'⟩ := hd
    simp only [keysOf, List.map_cons, List.mem_cons] at h
    push_neg at h
    simp [findVal, Ne.symm h.1, ih (by simpa [keysOf] using h.2)]

theorem findVal_isSome_of_mem (l : List (String × α)) (k : String)
    (h : k ∈ keysOf l) : (findVal l k).isSome := by
  induction l with
  | nil => simp [keysOf] at h
  | cons hd tl ih =>
    obtain ⟨k', v'⟩ := hd
    by_cases hk : k' = k
    · simp [findVal, hk]
    · simp only [keysOf, List.map_cons, List.mem_cons] at h
      rcases h with h | h
      · exact absurd h.symm hk
      · simpa [findVal, hk] using ih (by simpa [keysOf] using h)

theorem catMap_eq_nil_iff {f : α → List β} {l : List α} :
    catMap f l = [] ↔ ∀ a ∈ l, f a = [] := by
  induction l with
  | nil => simp [catMap]
  | cons a tl ih => simp [catMap, List.append_eq_nil, ih]

theorem cardFieldDiff_self (k : String) (c : Card) : cardFieldDiff k c c = [] := by
  simp [cardFieldDiff]

theorem cardKeyDiff_of_eq {o n : List (String × Card)} (k : String)
    (h : findVal o k = findVal n k) : cardKeyDiff o n k = [] := by
  unfold cardKeyDiff
  rw [h]
  cases findVal n k with
  | none => rfl
  | some c => exact cardFieldDiff_self k c

theorem cardFieldDiff_eq_nil_iff {k : String} {o n : Card} :
    cardFieldDiff k o n = [] ↔ o = n := by
  constructor
  · intro h
    simp only [cardFieldDiff, List.append_eq_nil] at h
    obtain ⟨⟨⟨⟨⟨h1, h2⟩, h3⟩, h4⟩, h5⟩, h6⟩ := h
    cases o; cases n
    simp only [ite_eq_right_iff, reduceCtorEq, imp_false, not_not] at h1 h2 h3 h4 h5 h6
    simp_all
  · rintro rfl
    exact cardFieldDiff_self k o

theorem cardKeyDiff_eq_nil_iff {o n : List (String × Card)} {k : String} :
    cardKeyDiff o n k = [] ↔ findVal o k = findVal n k := by
  constructor
  · intro h
    unfold cardKeyDiff at h
    cases ho : findVal o k <;> cases hn : findVal n k <;> rw [ho, hn] at h <;>
      simp_all [cardFieldDiff_eq_nil_iff]
  · exact cardKeyDiff_of_eq k

theorem cardsDiff_eq_nil_iff {o n : List (String × Card)} :
    cardsDiff o n = [] ↔ ∀ k ∈ keysOf o ++ keysOf n, findVal o k = findVal n k := by
  unfold cardsDiff
  rw [catMap_eq_nil_iff]
  constructor
  · intro h k hk
    exact cardKeyDiff_eq_nil_iff.1 (h k (List.mem_dedup.2 hk))
  · intro h k hk
    exact cardKeyDiff_eq_nil_iff.2 (h k (List.mem_dedup.1 hk))

theorem cardsDiff_self (l : List (String × Card)) : cardsDiff l l = [] :=
  cardsDiff_eq_nil_iff.2 (fun _ _ => rfl)

theorem ncKeyDiff_eq_nil_iff {o n : List NodeConnection} {k : String} :
    ncKeyDiff o n k = [] ↔ ncFind o k = ncFind n k := by
  unfold ncKeyDiff
  cases ho : ncFind o k <;> cases hn : ncFind n k
  · simp
  · simp
  · simp
  · rename_i vo vn
    by_cases hv : vn = vo
    · simp [hv]
    · simp only [hv, ne_eq, not_false_iff, if_true]
      simp only [List.cons_ne_nil, Option.some.injEq, false_iff]
      exact fun hh => hv hh.symm

theorem ncDiff_eq_nil_iff {o n : List NodeConnection} :
    ncDiff o n = [] ↔ ∀ k ∈ ncKeys o ++ ncKeys n, ncFind o k = ncFind n k := by
  unfold ncDiff
  rw [catMap_eq_nil_iff]
  constructor
  · intro h k hk
    exact ncKeyDiff_eq_nil_iff.1 (h k (List.mem_dedup.2 hk))
  · intro h k hk
    exact ncKeyDiff_eq_nil_iff.2 (h k (List.mem_dedup.1 hk))

theorem ncDiff_self (l : List NodeConnection) : ncDiff l l = [] :=
  ncDiff_eq_nil_iff.2 (fun _ _ => rfl)

theorem diffViews_self (v : BoardState) : diffViews v v = [] := by
  simp [diffViews, cardsDiff_self, ncDiff_self]

theorem ifone_eq_nil_iff {P : Prop} [Decidable P] {x : α} :
    (if P then [x] else []) = [] ↔ ¬P := by
  split <;> simp_all

/-- The mutator changed nothing exactly when the value-level diff is empty
(spec 4.3: "If the mutator produced no change, returns a delta whose patch is
empty"). -/
theorem diffViews_eq_nil_iff {o n : BoardState} :
    diffViews o n = [] ↔ StateEquiv o n := by
  unfold diffViews StateEquiv
  rw [List.append_eq_nil, List.append_eq_nil, List.append_eq_nil, List.append_eq_nil,
    cardsDiff_eq_nil_iff, ncDiff_eq_nil_iff, ifone_eq_nil_iff, ifone_eq_nil_iff,
    ifone_eq_nil_iff, not_ne_iff, not_ne_iff, not_ne_iff]
  constructor
  · rintro ⟨⟨⟨⟨h1, h2⟩, h3⟩, h4⟩, h5⟩
    exact ⟨h1.symm, h2.symm, h3.symm, h4, h5⟩
  · rintro ⟨h1, h2, h3, h4, h5⟩
    exact ⟨⟨⟨⟨h1.symm, h2.symm⟩, h3.symm⟩, h4⟩, h5⟩

/-! ### The state after an edit -/

theorem stampReg_val [DecidableEq α] (r : Reg α) (v : α) (ts : HLC) :
    (stampReg r v ts).val = v := by
  unfold stampReg
  split <;> simp_all

theorem viewCard_cardRof (ts : HLC) (c : Card) : viewCard (cardRof ts c) = c := by
  cases c; rfl

theorem viewCard_stampCard (old : Option CardR) (c : Card) (ts : HLC) :
    viewCard (stampCard old c ts) = c := by
  cases old with
  | none => exact viewCard_cardRof ts c
  | some o => cases c; simp [stampCard, viewCard, stampReg_val]

theorem list_map_self {l : List α} {f : α → α} (h : ∀ a ∈ l, f a = a) :
    l.map f = l := by
  induction l with
  | nil => rfl
  | cons a tl ih => simp [h a (by simp), ih (fun x hx => h x (by simp [hx]))]

/-- After `edit(fn)` the replica's snapshot is the mutated snapshot (in
canonical form); a no-change mutator leaves the snapshot untouched. -/
theorem viewOf_crdtEdit (fn : BoardState → BoardState) (c : CRDTR) :
    viewOf (crdtEdit fn c).1 =
      if diffViews (viewOf c) (fn (viewOf c)) = [] then viewOf c
      else canonV (fn (viewOf c)) := by
  unfold crdtEdit
  split
  · simp_all
  · rename_i h
    rw [if_neg h]
    unfold viewOf canonV
    simp only [stampReg_val, stampCards, stampNCs, List.map_map]
    congr 1
    · congr 1
      apply congrArg
      apply list_map_self
      intro p _
      simp [Function.comp, viewCard_stampCard]
    · apply list_map_self
      intro nc _
      cases hv : findVal c.ncs nc.nodeID <;> cases nc <;>
        simp_all [Function.comp, stampReg_val]

/-! ### Pipeline helper lemmas -/

theorem crdtEdit_of_nil {fn : BoardState → BoardState} {c : CRDTR}
    (h : diffViews (viewOf c) (fn (viewOf c)) = []) :
    crdtEdit fn c = (c, ⟨c.clock, none⟩) := by
  unfold crdtEdit
  rw [if_pos h]

theorem crdtEdit_patch_eq (fn : BoardState → BoardState) (c : CRDTR) :
    (crdtEdit fn c).2.patch =
      if diffViews (viewOf c) (fn (viewOf c)) = [] then none
      else some (diffViews (viewOf c) (fn (viewOf c))) := by
  unfold crdtEdit
  split <;> rename_i h <;> simp [h]

theorem Edit_of_nil {fn : BoardState → BoardState} {s : StoreM}
    (h : diffViews (viewOf s.crdt) (fn (viewOf s.crdt)) = []) :
    s.Edit fn = (s, ⟨s.crdt.clock, none⟩) := by
  unfold StoreM.Edit
  rw [crdtEdit_of_nil h]

theorem Edit_crdt (fn : BoardState → BoardState) (s : StoreM) :
    (s.Edit fn).1.crdt = (crdtEdit fn s.crdt).1 := by
  unfold StoreM.Edit
  split <;> rfl

theorem Edit_patches_of_none {fn : BoardState → BoardState} {s : StoreM}
    (h : (crdtEdit fn s.crdt).2.patch = none) :
    (s.Edit fn).1.patches = s.patches := by
  unfold StoreM.Edit
  split <;> simp_all

theorem Edit_patches_of_some {fn : BoardState → BoardState} {s : StoreM} {es : List Entry}
    (h : (crdtEdit fn s.crdt).2.patch = some es) :
    (s.Edit fn).1.patches =
      s.patches ++ [⟨(crdtEdit fn s.crdt).2.timestamp, deltaSummary (crdtEdit fn s.crdt).2⟩] := by
  unfold StoreM.Edit
  split <;> simp_all

theorem Edit_slot_of_some {fn : BoardState → BoardState} {s : StoreM} {es : List Entry}
    (h : (crdtEdit fn s.crdt).2.patch = some es) :
    (s.Edit fn).1.stateSlot = some (s.Edit fn).1.crdt := by
  unfold StoreM.Edit
  split <;> simp_all

theorem SilentEdit_patches (fn : BoardState → BoardState) (s : StoreM) :
    (s.SilentEdit fn).patches = s.patches := by
  unfold StoreM.SilentEdit
  split <;> rfl

theorem SilentEdit_slot_of_some {fn : BoardState → BoardState} {s : StoreM} {es : List Entry}
    (h : (crdtEdit fn s.crdt).2.patch = some es) :
    (s.SilentEdit fn).stateSlot = some (s.SilentEdit fn).crdt := by
  unfold StoreM.SilentEdit
  split <;> simp_all

theorem updateConnectionsLocked_crdt (count : Int) (s : StoreM) :
    (s.updateConnectionsLocked count).crdt =
      (crdtEdit (StoreM.connMutator s.nodeID count) s.crdt).1 := by
  unfold StoreM.updateConnectionsLocked
  split <;> rfl

theorem updateConnectionsLocked_patches (count : Int) (s : StoreM) :
    (s.updateConnectionsLocked count).patches = s.patches := by
  unfold StoreM.updateConnectionsLocked
  split <;> rfl

theorem updateConnectionsLocked_subs (count : Int) (s : StoreM) :
    (s.updateConnectionsLocked count).subs = s.subs := by
  unfold StoreM.updateConnectionsLocked
  split <;> rfl

theorem updateConnectionsLocked_closed (count : Int) (s : StoreM) :
    (s.updateConnectionsLocked count).closed = s.closed := by
  unfold StoreM.updateConnectionsLocked
  split <;> rfl

/-! ### The claims -/

/-- C1: apply-delta sync.  Node-1 (fresh seed state) edits
`board.title = "Updated Title"`, producing a delta `d`; Node-2 (fresh seed
state) applies `d`; afterwards Node-2's board title is `"Updated Title"`. -/
theorem claim_C1 :
    (viewOf ((NewStore "node-2").ApplyDelta
        ((NewStore "node-1").Edit
          (fun bs => { bs with board := { bs.board with title := "Updated Title" } })).2).crdt
      ).board.title = "Updated Title" := by
  decide

/-- C7: presence churn.  On a fresh node, subscribing twice drives the local
NodeConnection count to 2, the first unsubscribe to 1 and the second to 0;
none of the four transitions appends a patch row, and every broadcast fired
is a silent refresh. -/
theorem claim_C7 :
    ncFind (viewOf presenceR2.1.crdt).nodeConnections "node-1" = some 2 ∧
    ncFind (viewOf presenceU1.crdt).nodeConnections "node-1" = some 1 ∧
    ncFind (viewOf presenceU2.crdt).nodeConnections "node-1" = some 0 ∧
    presenceU2.patches = [] ∧ presenceS0.patches = [] ∧
    presenceU2.broadcasts = presenceS0.broadcasts ++
      [⟨"refresh", true⟩, ⟨"refresh", true⟩, ⟨"refresh", true⟩, ⟨"refresh", true⟩] := by
  decide

theorem viewOf_mkCRDT (init : BoardState) (n : String) :
    viewOf (mkCRDT init n) = canonV init := by
  unfold viewOf mkCRDT canonV cardsOf
  simp only [List.map_map]
  congr 1
  · congr 1
    apply congrArg
    rw [show init.board.cards.getD [] = cardsOf init from rfl]
    apply list_map_self
    intro p _
    simp [Function.comp, viewCard_cardRof]
  · apply list_map_self
    intro nc _
    cases nc
    simp [Function.comp]

theorem connMutator_board (n : String) (cnt : Int) (bs : BoardState) :
    (StoreM.connMutator n cnt bs).board = bs.board := rfl

theorem cardsOf_eq_of_board {v w : BoardState} (h : v.board = w.board) :
    cardsOf v = cardsOf w := by
  unfold cardsOf
  rw [h]

theorem canonV_board_congr {v w : BoardState} (h : v.board = w.board) :
    (canonV v).board = (canonV w).board := by
  unfold canonV
  rw [cardsOf_eq_of_board h, h]

/-- C8: seed on a fresh DB.  A store over a path with no persisted state has
board id `"main-board"`, exactly the three columns `todo`, `in-progress`,
`done` in that order, and exactly one card, `card-1`, sitting in `todo` with
a description containing "Explore the features of the deep library.". -/
theorem claim_C8 (nid : String) :
    (viewOf (NewStore nid).crdt).board.id = "main-board" ∧
    (viewOf (NewStore nid).crdt).board.columns.map Column.id =
      ["todo", "in-progress", "done"] ∧
    ∃ c : Card,
      cardsOf (viewOf (NewStore nid).crdt) = [("card-1", c)] ∧
      c.columnID = "todo" ∧
      strContainsGo (textString c.description)
        "Explore the features of the deep library." = true := by
  simp only [NewStore, updateConnectionsLocked_crdt, viewOf_crdtEdit, viewOf_mkCRDT]
  split
  · exact ⟨by decide, by decide, ⟨seedCard, by decide, by decide, by decide⟩⟩
  · have hb : (canonV (StoreM.connMutator nid 0 (canonV NewInitialBoard))).board
        = (canonV (canonV NewInitialBoard)).board :=
      canonV_board_congr (connMutator_board nid 0 (canonV NewInitialBoard))
    have hc : cardsOf (canonV (StoreM.connMutator nid 0 (canonV NewInitialBoard)))
        = cardsOf (canonV (canonV NewInitialBoard)) := cardsOf_eq_of_board hb
    refine ⟨?_, ?_, ⟨seedCard, ?_, by decide, by decide⟩⟩
    · rw [show (canonV (StoreM.connMutator nid 0 (canonV NewInitialBoard))).board.id
          = (canonV (canonV NewInitialBoard)).board.id from congrArg Board.id hb]
      decide
    · rw [show (canonV (StoreM.connMutator nid 0 (canonV NewInitialBoard))).board.columns
          = (canonV (canonV NewInitialBoard)).board.columns from congrArg Board.columns hb]
      decide
    · rw [hc]
      decide

/-- C9: Unsubscribe is idempotent at the public interface: an unregistered
handle returns with the store entirely unchanged (no close, no subscriber-map
change, no connection-count edit, broadcast or persistence write); only a
registered handle is deregistered, closed and followed by the count update. -/
theorem claim_C9 (s : StoreM) (ch : Nat) :
    (ch ∉ s.subs → s.Unsubscribe ch = s) ∧
    (ch ∈ s.subs →
      (s.Unsubscribe ch).subs = s.subs.erase ch ∧
      (s.Unsubscribe ch).closed = s.closed ++ [ch] ∧
      (s.Unsubscribe ch).patches = s.patches) := by
  constructor
  · intro h
    unfold StoreM.Unsubscribe
    rw [if_neg h]
  · intro h
    unfold StoreM.Unsubscribe
    rw [if_pos h]
    exact ⟨updateConnectionsLocked_subs _ _, updateConnectionsLocked_closed _ _,
      updateConnectionsLocked_patches _ _⟩

theorem claim_C9_witness :
    (5 ∉ (NewStore "n").subs) ∧ (NewStore "n").Unsubscribe 5 = NewStore "n" :=
  ⟨by decide, (claim_C9 (NewStore "n") 5).1 (by decide)⟩

theorem viewOf_cards (c : CRDTR) :
    (viewOf c).board.cards = some (cardsOf (viewOf c)) := rfl

theorem moveCardMutator_fix {s : StoreM} {cardID fromCol toCol : String} {toIndex : Int}
    (h : findVal (cardsOf (viewOf s.crdt)) cardID = none) :
    StoreM.moveCardMutator cardID fromCol toCol toIndex (viewOf s.crdt) = viewOf s.crdt := by
  unfold StoreM.moveCardMutator
  rw [viewOf_cards s.crdt]
  simp only [h]

theorem textOpMutator_fix {s : StoreM} {cardID op val : String} {pos len : Nat} {clk : HLC}
    (h : findVal (cardsOf (viewOf s.crdt)) cardID = none) :
    StoreM.textOpMutator cardID op val pos len clk (viewOf s.crdt) = viewOf s.crdt := by
  unfold StoreM.textOpMutator
  rw [viewOf_cards s.crdt]
  simp only [h]

/-- C4: not-found mutations are silent no-ops.  For a card id absent from the
board, `MoveCard` and `UpdateCardText` leave the whole store untouched (so
nothing is persisted, no patch row is appended, no refresh and no peer push
occurs) and the underlying edit produces a delta with an empty patch. -/
theorem claim_C4 (s : StoreM) (cardID fromCol toCol : String) (toIndex : Int)
    (op val : String) (pos len : Nat)
    (h : findVal (cardsOf (viewOf s.crdt)) cardID = none) :
    s.MoveCard cardID fromCol toCol toIndex = s ∧
    (crdtEdit (StoreM.moveCardMutator cardID fromCol toCol toIndex) s.crdt).2.patch = none ∧
    s.UpdateCardText cardID op val pos len = s ∧
    (crdtEdit (StoreM.textOpMutator cardID op val pos len s.crdt.clock) s.crdt).2.patch
      = none := by
  have hm : diffViews (viewOf s.crdt)
      (StoreM.moveCardMutator cardID fromCol toCol toIndex (viewOf s.crdt)) = [] := by
    rw [moveCardMutator_fix h]
    exact diffViews_self _
  have ht : diffViews (viewOf s.crdt)
      (StoreM.textOpMutator cardID op val pos len s.crdt.clock (viewOf s.crdt)) = [] := by
    rw [textOpMutator_fix h]
    exact diffViews_self _
  refine ⟨?_, ?_, ?_, ?_⟩
  · show (s.Edit _).1 = s
    rw [Edit_of_nil hm]
  · rw [crdtEdit_patch_eq, if_pos hm]
  · show (s.Edit _).1 = s
    rw [Edit_of_nil ht]
  · rw [crdtEdit_patch_eq, if_pos ht]

theorem claim_C4_witness :
    findVal (cardsOf (viewOf (NewStore "n").crdt)) "missing" = none ∧
    (NewStore "n").MoveCard "missing" "todo" "done" 0 = NewStore "n" ∧
    (NewStore "n").UpdateCardText "missing" "insert" "x" 0 0 = NewStore "n" := by
  refine ⟨by decide, ?_, ?_⟩
  · exact (claim_C4 (NewStore "n") "missing" "todo" "done" 0 "insert" "x" 0 0
      (by decide)).1
  · exact (claim_C4 (NewStore "n") "missing" "todo" "done" 0 "insert" "x" 0 0
      (by decide)).2.2.1

/-- C10: `AddCard` is total even without a card map.  On a state whose card
map is nil the mutator allocates the map first, so the call cannot fault and
afterwards the single card present carries the fresh id, the given title, an
empty description, column `todo`, and order 1000 (the todo maximum 0 plus
1000); `Store.AddCard` returns the fresh id. -/
theorem claim_C10 (bs : BoardState) (id title : String)
    (h : bs.board.cards = none) :
    (StoreM.addCardMutator id title bs).board.cards =
      some [(id, { id := id, title := title, description := [], assignee := "",
                   columnID := "todo", order := 1000 })] ∧
    (∀ s : StoreM, (s.AddCard id title).2 = id) := by
  constructor
  · unfold StoreM.addCardMutator
    rw [h]
    simp [StoreM.maxOrderGo, setVal]
  · intro s
    rfl

theorem claim_C10_witness :
    (Board.mk "b" "t" [] none, ([] : List NodeConnection)).1.cards = none ∧
    (StoreM.addCardMutator "u1" "task" ⟨Board.mk "b" "t" [] none, []⟩).board.cards =
      some [("u1", { id := "u1", title := "task", description := [], assignee := "",
                     columnID := "todo", order := 1000 })] :=
  ⟨rfl, (claim_C10 ⟨Board.mk "b" "t" [] none, []⟩ "u1" "task" rfl).1⟩

theorem mem_keysOf_of_findVal {l : List (String × α)} {k : String} {v : α}
    (h : findVal l k = some v) : k ∈ keysOf l := by
  by_contra hk
  rw [findVal_eq_none_of_not_mem l k hk] at h
  cases h

theorem maxOrder_fold_ge (col : String) (l : List (String × Card)) :
    ∀ acc : ℚ, acc ≤
      l.foldl (fun a p => if p.2.columnID = col ∧ a < p.2.order then p.2.order else a) acc := by
  induction l with
  | nil => intro acc; exact le_refl acc
  | cons q tl ih =>
    intro acc
    rw [List.foldl_cons]
    refine le_trans ?_ (ih _)
    split
    · rename_i hq
      exact le_of_lt hq.2
    · exact le_refl acc

theorem maxOrder_fold_ub (col : String) (l : List (String × Card)) :
    ∀ (acc : ℚ) (p : String × Card), p ∈ l → p.2.columnID = col → p.2.order ≤
      l.foldl (fun a q => if q.2.columnID = col ∧ a < q.2.order then q.2.order else a) acc := by
  induction l with
  | nil => intro _ _ hp; cases hp
  | cons q tl ih =>
    intro acc p hp hcol
    rw [List.foldl_cons]
    rcases List.mem_cons.1 hp with rfl | hp
    · refine le_trans ?_ (maxOrder_fold_ge col tl _)
      by_cases ha : acc < p.2.order
      · rw [if_pos ⟨hcol, ha⟩]
      · rw [if_neg (fun hh => ha hh.2)]
        exact le_of_not_lt ha
    · exact ih _ p hp hcol

theorem maxOrder_fold_cases (col : String) (l : List (String × Card)) :
    ∀ acc : ℚ,
      l.foldl (fun a q => if q.2.columnID = col ∧ a < q.2.order then q.2.order else a) acc = acc
      ∨ ∃ p ∈ l, p.2.columnID = col ∧
        l.foldl (fun a q => if q.2.columnID = col ∧ a < q.2.order then q.2.order else a) acc
          = p.2.order := by
  induction l with
  | nil => intro acc; exact Or.inl rfl
  | cons q tl ih =>
    intro acc
    rw [List.foldl_cons]
    rcases ih (if q.2.columnID = col ∧ acc < q.2.order then q.2.order else acc) with
      heq | ⟨p, hp, hcol, heq⟩
    · by_cases hc : q.2.columnID = col ∧ acc < q.2.order
      · refine Or.inr ⟨q, List.mem_cons_self _ _, hc.1, ?_⟩
        rw [heq, if_pos hc]
      · refine Or.inl ?_
        rw [heq, if_neg hc]
    · exact Or.inr ⟨p, List.mem_cons_of_mem _ hp, hcol, heq⟩

theorem moveCardMutator_found {s : StoreM} {cardID fromCol toCol : String} {toIndex : Int}
    {card : Card} (h : findVal (cardsOf (viewOf s.crdt)) cardID = some card) :
    StoreM.moveCardMutator cardID fromCol toCol toIndex (viewOf s.crdt)
      = { viewOf s.crdt with board := { (viewOf s.crdt).board with
            cards := some (setVal (cardsOf (viewOf s.crdt)) cardID
              { card with
                columnID := toCol
                order := StoreM.maxOrderGo (cardsOf (viewOf s.crdt)) toCol + 1000 }) } } := by
  unfold StoreM.moveCardMutator
  rw [viewOf_cards s.crdt]
  simp only [h]

/-- C5: moving an existing card reassigns its column to `toCol` and recomputes
its order as 1000 past the column's pre-move maximum (the Go scan: the largest
order strictly above 0 among `toCol` cards, so 0 when no order exceeds 0: the
scan result is an upper bound of the column's orders, nonnegative, and equal
to one of them unless it is 0); the `fromCol` and `toIndex` arguments do not
affect the result. -/
theorem claim_C5 (s : StoreM) (cardID fromCol toCol : String) (toIndex : Int) (card : Card)
    (h : findVal (cardsOf (viewOf s.crdt)) cardID = some card) :
    (findVal (cardsOf (viewOf (s.MoveCard cardID fromCol toCol toIndex).crdt)) cardID =
      some { card with
             columnID := toCol
             order := StoreM.maxOrderGo (cardsOf (viewOf s.crdt)) toCol + 1000 }) ∧
    (0 ≤ StoreM.maxOrderGo (cardsOf (viewOf s.crdt)) toCol) ∧
    (∀ p ∈ cardsOf (viewOf s.crdt), p.2.columnID = toCol →
       p.2.order ≤ StoreM.maxOrderGo (cardsOf (viewOf s.crdt)) toCol) ∧
    (StoreM.maxOrderGo (cardsOf (viewOf s.crdt)) toCol = 0 ∨
       ∃ p ∈ cardsOf (viewOf s.crdt), p.2.columnID = toCol ∧
         StoreM.maxOrderGo (cardsOf (viewOf s.crdt)) toCol = p.2.order) ∧
    (∀ (fromCol' : String) (toIndex' : Int),
       s.MoveCard cardID fromCol' toCol toIndex' = s.MoveCard cardID fromCol toCol toIndex) := by
  refine ⟨?_, maxOrder_fold_ge toCol _ 0, fun p hp hcol => maxOrder_fold_ub toCol _ 0 p hp hcol,
    maxOrder_fold_cases toCol _ 0, fun _ _ => rfl⟩
  show findVal (cardsOf (viewOf
      (s.Edit (StoreM.moveCardMutator cardID fromCol toCol toIndex)).1.crdt)) cardID = _
  rw [Edit_crdt, viewOf_crdtEdit]
  split
  · rename_i hnil
    have hequiv := diffViews_eq_nil_iff.1 hnil
    have hk : cardID ∈ keysOf (cardsOf (viewOf s.crdt)) := mem_keysOf_of_findVal h
    have hcards := hequiv.2.2.2.1 cardID (List.mem_append.2 (Or.inl hk))
    rw [moveCardMutator_found h] at hcards
    rw [show cardsOf { viewOf s.crdt with board := { (viewOf s.crdt).board with
          cards := some (setVal (cardsOf (viewOf s.crdt)) cardID
            { card with
              columnID := toCol
              order := StoreM.maxOrderGo (cardsOf (viewOf s.crdt)) toCol + 1000 }) } }
        = setVal (cardsOf (viewOf s.crdt)) cardID
            { card with
              columnID := toCol
              order := StoreM.maxOrderGo (cardsOf (viewOf s.crdt)) toCol + 1000 } from rfl,
      findVal_setVal] at hcards
    exact hcards
  · rw [moveCardMutator_found h]
    exact findVal_setVal _ _ _

theorem claim_C5_witness :
    findVal (cardsOf (viewOf (NewStore "n").crdt)) "card-1" = some seedCard ∧
    findVal (cardsOf (viewOf ((NewStore "n").MoveCard "card-1" "todo" "done" 0).crdt))
        "card-1" =
      some { seedCard with
             columnID := "done"
             order := StoreM.maxOrderGo (cardsOf (viewOf (NewStore "n").crdt)) "done"
               + 1000 } :=
  ⟨by decide, (claim_C5 (NewStore "n") "card-1" "todo" "done" 0 seedCard (by decide)).1⟩

/-- C3 as stated is false at the identity mutator: that call to `Edit` goes
through the non-silent pipeline yet appends no row to the patches log (the
pipeline only appends on a non-empty patch). -/
theorem claim_C3_counterexample :
    ((NewStore "n").Edit (fun bs => bs)).1.patches = [] ∧
    (NewStore "n").patches = [] := by
  decide

/-- C3 (amended): `SilentEdit` never appends a patch row; `Edit` appends
exactly one row when the mutator changed the state and none when it left the
state unchanged (keyed collections compared per key); both pipelines save the
latest-state slot when the mutator changed the state. -/
theorem claim_C3 (fn : BoardState → BoardState) (s : StoreM) :
    ((s.SilentEdit fn).patches = s.patches) ∧
    (StateEquiv (viewOf s.crdt) (fn (viewOf s.crdt)) →
       (s.Edit fn).1.patches = s.patches) ∧
    (¬ StateEquiv (viewOf s.crdt) (fn (viewOf s.crdt)) →
       (s.Edit fn).1.patches = s.patches ++
         [⟨(crdtEdit fn s.crdt).2.timestamp, deltaSummary (crdtEdit fn s.crdt).2⟩]) ∧
    (¬ StateEquiv (viewOf s.crdt) (fn (viewOf s.crdt)) →
       (s.Edit fn).1.stateSlot = some (s.Edit fn).1.crdt ∧
       (s.SilentEdit fn).stateSlot = some (s.SilentEdit fn).crdt) := by
  have hiff : (crdtEdit fn s.crdt).2.patch = none ↔
      StateEquiv (viewOf s.crdt) (fn (viewOf s.crdt)) := by
    rw [crdtEdit_patch_eq]
    constructor
    · intro hh
      by_cases hd : diffViews (viewOf s.crdt) (fn (viewOf s.crdt)) = []
      · exact diffViews_eq_nil_iff.1 hd
      · rw [if_neg hd] at hh
        cases hh
    · intro he
      rw [if_pos (diffViews_eq_nil_iff.2 he)]
  refine ⟨SilentEdit_patches fn s, ?_, ?_, ?_⟩
  · intro he
    exact Edit_patches_of_none (hiff.2 he)
  · intro hne
    have hne' : (crdtEdit fn s.crdt).2.patch ≠ none := fun hh => hne (hiff.1 hh)
    rcases Option.ne_none_iff_exists'.1 hne' with ⟨es, hes⟩
    exact Edit_patches_of_some hes
  · intro hne
    have hne' : (crdtEdit fn s.crdt).2.patch ≠ none := fun hh => hne (hiff.1 hh)
    rcases Option.ne_none_iff_exists'.1 hne' with ⟨es, hes⟩
    exact ⟨Edit_slot_of_some hes, SilentEdit_slot_of_some hes⟩

theorem claim_C3_witness :
    ¬ StateEquiv (viewOf (NewStore "n").crdt)
        ((fun bs => { bs with board := { bs.board with title := "T" } })
          (viewOf (NewStore "n").crdt)) ∧
    ((NewStore "n").Edit
        (fun bs => { bs with board := { bs.board with title := "T" } })).1.patches
      = (NewStore "n").patches ++
        [⟨(crdtEdit (fun bs => { bs with board := { bs.board with title := "T" } })
             (NewStore "n").crdt).2.timestamp,
          deltaSummary (crdtEdit
             (fun bs => { bs with board := { bs.board with title := "T" } })
             (NewStore "n").crdt).2⟩] :=
  ⟨by decide,
   (claim_C3 (fun bs => { bs with board := { bs.board with title := "T" } })
      (NewStore "n")).2.2.1 (by decide)⟩

theorem chStarts_mono (p : List Char) :
    ∀ l r : List Char, chStarts p l = true → chStarts p (l ++ r) = true := by
  induction p with
  | nil => intro l r _; rfl
  | cons a ps ih =>
    intro l r h
    cases l with
    | nil => cases h
    | cons b bs =>
      simp only [chStarts, Bool.and_eq_true] at h
      simp only [List.cons_append, chStarts, Bool.and_eq_true]
      exact ⟨h.1, ih bs r h.2⟩

theorem chHas_of_starts {p l : List Char} (h : chStarts p l = true) : chHas p l = true := by
  cases l with
  | nil => simpa [chHas] using h
  | cons a tl => simp [chHas, h]

theorem entryPath_nc_starts {e : Entry} (h : e.isNc = true) :
    chStarts "nodeConnections".data (entryPath e).data = true := by
  cases e <;> simp [Entry.isNc] at h <;> unfold entryPath <;>
    rw [String.data_append, String.data_append, List.append_assoc] <;>
    exact chStarts_mono _ _ _ (by decide)

theorem strContains_patchSummary_nc {e : Entry} (tl : List Entry) (h : e.isNc = true) :
    strContainsGo (patchSummary (e :: tl)) "nodeConnections" = true := by
  have hst := entryPath_nc_starts h
  unfold strContainsGo
  cases tl with
  | nil => exact chHas_of_starts hst
  | cons e2 tl2 =>
    rw [show patchSummary (e :: e2 :: tl2)
        = entryPath e ++ ", " ++ patchSummary (e2 :: tl2) from rfl]
    rw [String.data_append, String.data_append, List.append_assoc]
    exact chHas_of_starts (chStarts_mono _ _ _ hst)

/-- C2 as stated is false: a remote delta whose patch touches both
`board.title` (a non-presence field, and the application does change the
board title) and a `nodeConnections` entry is broadcast with `silent = true`,
because the code only checks that the summary contains `"nodeConnections"`. -/
theorem claim_C2_counterexample :
    ((NewStore "node-2").ApplyDelta
        ⟨⟨5, "x"⟩, some [Entry.bTitle "T2", Entry.ncSet "n9" 7]⟩).broadcasts
      = (NewStore "node-2").broadcasts ++ [⟨"refresh", true⟩] ∧
    Entry.isNc (Entry.bTitle "T2") = false ∧
    (viewOf ((NewStore "node-2").ApplyDelta
        ⟨⟨5, "x"⟩, some [Entry.bTitle "T2", Entry.ncSet "n9" 7]⟩).crdt).board.title = "T2" ∧
    (viewOf (NewStore "node-2").crdt).board.title ≠ "T2" := by
  decide

/-- C2 (amended): on a state-changing apply, the refresh is silent iff the
patch summary contains the substring `"nodeConnections"` - so a patch whose
entries all touch presence/connection fields is broadcast silently, but a
mixed patch that also touches non-presence fields is silent as well. -/
theorem claim_C2 (d : Delta) (s : StoreM) :
    ((s.ApplyDelta d).broadcasts = s.broadcasts ++
      (if (crdtApply d s.crdt).2
       then [⟨"refresh", strContainsGo (deltaSummary d) "nodeConnections"⟩]
       else [])) ∧
    (∀ (e : Entry) (es : List Entry), d.patch = some (e :: es) →
       (e :: es).all Entry.isNc = true →
       strContainsGo (deltaSummary d) "nodeConnections" = true) := by
  constructor
  · unfold StoreM.ApplyDelta
    split <;> rename_i hap <;> simp [hap]
  · intro e es hp hall
    have he : e.isNc = true := by
      simp only [List.all_cons, Bool.and_eq_true] at hall
      exact hall.1
    rw [show deltaSummary d = patchSummary (e :: es) by unfold deltaSummary; rw [hp]]
    exact strContains_patchSummary_nc es he

theorem claim_C2_witness :
    (([Entry.ncSet "n9" 7] : List Entry).all Entry.isNc = true) ∧
    strContainsGo (deltaSummary ⟨⟨5, "x"⟩, some [Entry.ncSet "n9" 7]⟩)
      "nodeConnections" = true :=
  ⟨by decide,
   (claim_C2 ⟨⟨5, "x"⟩, some [Entry.ncSet "n9" 7]⟩ (NewStore "n")).2
     (Entry.ncSet "n9" 7) [] rfl (by decide)⟩

/-! ### Merge algebra (for C6) -/

theorem regMerge_comm [LinearOrder α] (a b : Reg α) : regMerge a b = regMerge b a := by
  unfold regMerge
  rcases lt_trichotomy a.ts b.ts with h | h | h
  · rw [if_pos h, if_neg (asymm h), if_pos h]
  · rw [if_neg (by rw [h]; exact lt_irrefl _), if_neg (by rw [h]; exact lt_irrefl _),
      if_neg (by rw [h]; exact lt_irrefl _), if_neg (by rw [h]; exact lt_irrefl _),
      h, max_comm]
  · rw [if_neg (asymm h), if_pos h, if_pos h]

theorem regMerge_self [LinearOrder α] (a : Reg α) : regMerge a a = a := by
  unfold regMerge
  rw [if_neg (lt_irrefl _), if_neg (lt_irrefl _), max_self]

theorem regMerge_absorb [LinearOrder α] (a b : Reg α) :
    regMerge (regMerge a b) b = regMerge a b := by
  rcases lt_trichotomy a.ts b.ts with h | h | h
  · have e1 : regMerge a b = b := by unfold regMerge; rw [if_pos h]
    rw [e1, regMerge_self]
  · have e1 : regMerge a b = ⟨a.ts, max a.val b.val⟩ := by
      unfold regMerge
      rw [if_neg (by rw [h]; exact lt_irrefl _), if_neg (by rw [h]; exact lt_irrefl _)]
    rw [e1]
    unfold regMerge
    rw [if_neg (by rw [h]; exact lt_irrefl _), if_neg (by rw [h]; exact lt_irrefl _)]
    rw [max_assoc, max_self]
  · have e1 : regMerge a b = a := by unfold regMerge; rw [if_neg (asymm h), if_pos h]
    rw [e1, e1]

theorem textFin_textSorted (s : Finset Atom) : textFin (textSorted s) = s := by
  unfold textFin textSorted
  exact Finset.sort_toFinset _ s

theorem textMerge_self (a : TextT) : textMerge a a = a := by
  unfold textMerge
  rw [if_pos rfl]

theorem textMerge_comm (a b : TextT) : textMerge a b = textMerge b a := by
  unfold textMerge
  by_cases hab : a = b
  · subst hab; simp
  · rw [if_neg hab, if_neg (Ne.symm hab)]
    by_cases h1 : textFin b ⊂ textFin a
    · rw [if_pos h1, if_neg (fun h2 => ssubset_irrefl _ (h1.trans h2)), if_pos h1]
    · rw [if_neg h1]
      by_cases h2 : textFin a ⊂ textFin b
      · rw [if_pos h2, if_pos h2]
      · rw [if_neg h2, if_neg h2, if_neg h1, Finset.union_comm]

theorem textMerge_absorb (a b : TextT) : textMerge (textMerge a b) b = textMerge a b := by
  by_cases hab : a = b
  · subst hab; rw [textMerge_self, textMerge_self]
  · by_cases h1 : textFin b ⊂ textFin a
    · have e1 : textMerge a b = a := by unfold textMerge; rw [if_neg hab, if_pos h1]
      rw [e1, e1]
    · by_cases h2 : textFin a ⊂ textFin b
      · have e1 : textMerge a b = b := by
          unfold textMerge; rw [if_neg hab, if_neg h1, if_pos h2]
        rw [e1, textMerge_self]
      · have e1 : textMerge a b = textSorted (textFin a ∪ textFin b) := by
          unfold textMerge; rw [if_neg hab, if_neg h1, if_neg h2]
        rw [e1]
        have hfm : textFin (textSorted (textFin a ∪ textFin b)) = textFin a ∪ textFin b :=
          textFin_textSorted _
        by_cases hmb : textSorted (textFin a ∪ textFin b) = b
        · rw [hmb, textMerge_self]
        · unfold textMerge
          rw [if_neg hmb]
          by_cases h3 : textFin b ⊂ textFin (textSorted (textFin a ∪ textFin b))
          · rw [if_pos h3]
          · rw [if_neg h3]
            have h4 : ¬ textFin (textSorted (textFin a ∪ textFin b)) ⊂ textFin b := by
              rw [hfm]
              intro hss
              exact ssubset_irrefl _
                (ssubset_of_ssubset_of_subset hss Finset.subset_union_right)
            rw [if_neg h4, hfm, Finset.union_assoc, Finset.union_self]

theorem cardMerge_comm (a b : CardR) : cardMerge a b = cardMerge b a := by
  unfold cardMerge
  rw [regMerge_comm a.idf, regMerge_comm a.title, regMerge_comm a.assignee,
    regMerge_comm a.columnID, regMerge_comm a.order, textMerge_comm a.desc]

theorem cardMerge_self (a : CardR) : cardMerge a a = a := by
  unfold cardMerge
  rw [regMerge_self, regMerge_self, regMerge_self, regMerge_self, regMerge_self,
    textMerge_self]

theorem cardMerge_absorb (a b : CardR) : cardMerge (cardMerge a b) b = cardMerge a b := by
  unfold cardMerge
  rw [regMerge_absorb, regMerge_absorb, regMerge_absorb, regMerge_absorb, regMerge_absorb,
    textMerge_absorb]

theorem list_filterMap_congr {f g : α → Option β} :
    ∀ {l : List α}, (∀ a ∈ l, f a = g a) → l.filterMap f = l.filterMap g := by
  intro l
  induction l with
  | nil => intro _; rfl
  | cons a tl ih =>
    intro h
    rw [List.filterMap_cons, List.filterMap_cons, h a (List.mem_cons_self _ _),
      ih (fun x hx => h x (List.mem_cons_of_mem _ hx))]

theorem mergeOpt_comm {mv : β → β → β} (hc : ∀ x y, mv x y = mv y x)
    (x y : Option β) : mergeOpt mv x y = mergeOpt mv y x := by
  cases x <;> cases y <;> simp [mergeOpt]
  exact hc _ _

theorem mergeOpt_absorb {mv : β → β → β} (ha : ∀ x y, mv (mv x y) y = mv x y)
    (hs : ∀ x, mv x x = x) (x y : Option β) :
    mergeOpt mv (mergeOpt mv x y) y = mergeOpt mv x y := by
  cases x <;> cases y <;> simp [mergeOpt]
  · exact hs _
  · exact ha _ _

theorem mergeOpt_isSome {mv : β → β → β} (x y : Option β) :
    (mergeOpt mv x y).isSome = (x.isSome || y.isSome) := by
  cases x <;> cases y <;> simp [mergeOpt]

theorem findVal_filterMap_keyed (f : String → Option β) :
    ∀ l : List String, l.Nodup → ∀ k : String,
      findVal (l.filterMap (fun j => (f j).map (fun v => (j, v)))) k
        = if k ∈ l then f k else none := by
  intro l
  induction l with
  | nil => intro _ k; simp [findVal]
  | cons a tl ih =>
    intro hnd k
    rcases List.nodup_cons.1 hnd with ⟨ha, hnd2⟩
    rw [List.filterMap_cons]
    cases hfa : f a with
    | none =>
      show findVal (tl.filterMap (fun j => (f j).map (fun v => (j, v)))) k
        = if k ∈ a :: tl then f k else none
      rw [ih hnd2 k]
      by_cases hk : k = a
      · subst hk
        rw [if_neg ha, if_pos (List.mem_cons_self _ _), hfa]
      · by_cases hk2 : k ∈ tl
        · rw [if_pos hk2, if_pos (List.mem_cons_of_mem _ hk2)]
        · rw [if_neg hk2, if_neg (by simp [List.mem_cons, hk, hk2])]
    | some v =>
      show findVal ((a, v) :: _) k = _
      unfold findVal
      by_cases hk : a = k
      · subst hk
        rw [if_pos rfl, if_pos (List.mem_cons_self _ _), hfa]
      · rw [if_neg hk, ih hnd2 k]
        by_cases hk2 : k ∈ tl
        · rw [if_pos hk2, if_pos (List.mem_cons_of_mem _ hk2)]
        · rw [if_neg hk2, if_neg (by
            intro hm
            rcases List.mem_cons.1 hm with h | h
            · exact hk h.symm
            · exact hk2 h)]

theorem keysOf_filterMap_keyed (f : String → Option β) :
    ∀ l : List String, (∀ k ∈ l, (f k).isSome) →
      keysOf (l.filterMap (fun j => (f j).map (fun v => (j, v)))) = l := by
  intro l
  induction l with
  | nil => intro _; rfl
  | cons a tl ih =>
    intro h
    rw [List.filterMap_cons]
    cases hfa : f a with
    | none =>
      have := h a (List.mem_cons_self _ _)
      rw [hfa] at this
      cases this
    | some v =>
      show keysOf ((a, v) :: _) = _
      unfold keysOf
      rw [List.map_cons]
      have := ih (fun x hx => h x (List.mem_cons_of_mem _ hx))
      unfold keysOf at this
      rw [this]

theorem findVal_mergeKeyed (mv : β → β → β) (a b : List (String × β)) (k : String) :
    findVal (mergeKeyed mv a b) k = mergeOpt mv (findVal a k) (findVal b k) := by
  unfold mergeKeyed
  rw [findVal_filterMap_keyed _ _ (Finset.sort_nodup _ _) k]
  by_cases hk : k ∈ (keysFin a ∪ keysFin b).sort (· ≤ ·)
  · rw [if_pos hk]
  · rw [if_neg hk]
    rw [Finset.mem_sort, Finset.mem_union] at hk
    push_neg at hk
    have h1 : k ∉ keysOf a := by
      intro hm; exact hk.1 (by simpa [keysFin] using List.mem_toFinset.2 hm)
    have h2 : k ∉ keysOf b := by
      intro hm; exact hk.2 (by simpa [keysFin] using List.mem_toFinset.2 hm)
    rw [findVal_eq_none_of_not_mem _ _ h1, findVal_eq_none_of_not_mem _ _ h2]
    rfl

theorem keysOf_mergeKeyed (mv : β → β → β) (a b : List (String × β)) :
    keysOf (mergeKeyed mv a b) = (keysFin a ∪ keysFin b).sort (· ≤ ·) := by
  unfold mergeKeyed
  apply keysOf_filterMap_keyed
  intro k hk
  rw [Finset.mem_sort, Finset.mem_union] at hk
  rw [mergeOpt_isSome]
  rcases hk with hk | hk
  · rw [findVal_isSome_of_mem a k (by simpa [keysFin] using hk)]
    rfl
  · rw [findVal_isSome_of_mem b k (by simpa [keysFin] using hk)]
    simp

theorem keysFin_mergeKeyed (mv : β → β → β) (a b : List (String × β)) :
    keysFin (mergeKeyed mv a b) = keysFin a ∪ keysFin b := by
  unfold keysFin
  rw [keysOf_mergeKeyed]
  exact Finset.sort_toFinset _ _

theorem mergeKeyed_ext {mv : β → β → β} {a b c d : List (String × β)}
    (hk : keysFin a ∪ keysFin b = keysFin c ∪ keysFin d)
    (hv : ∀ k : String, mergeOpt mv (findVal a k) (findVal b k)
       = mergeOpt mv (findVal c k) (findVal d k)) :
    mergeKeyed mv a b = mergeKeyed mv c d := by
  unfold mergeKeyed
  rw [hk]
  exact list_filterMap_congr (fun k _ => by rw [hv k])

theorem mergeKeyed_comm {mv : β → β → β} (hc : ∀ x y, mv x y = mv y x)
    (a b : List (String × β)) : mergeKeyed mv a b = mergeKeyed mv b a := by
  unfold mergeKeyed
  rw [Finset.union_comm]
  exact list_filterMap_congr (fun k _ => by rw [mergeOpt_comm hc])

theorem mergeKeyed_absorb {mv : β → β → β} (ha : ∀ x y, mv (mv x y) y = mv x y)
    (hs : ∀ x, mv x x = x) (a b : List (String × β)) :
    mergeKeyed mv (mergeKeyed mv a b) b = mergeKeyed mv a b := by
  apply mergeKeyed_ext
  · rw [keysFin_mergeKeyed, Finset.union_assoc, Finset.union_self]
  · intro k
    rw [findVal_mergeKeyed]
    exact mergeOpt_absorb ha hs _ _

theorem filterMap_findVal_self (l : List (String × β)) (hnd : (keysOf l).Nodup) :
    (keysOf l).filterMap (fun j => (findVal l j).map (fun v => (j, v))) = l := by
  induction l with
  | nil => rfl
  | cons p tl ih =>
    obtain ⟨k0, v0⟩ := p
    have hk : keysOf ((k0, v0) :: tl) = k0 :: keysOf tl := rfl
    rw [hk] at hnd ⊢
    rcases List.nodup_cons.1 hnd with ⟨h0, hnd2⟩
    rw [List.filterMap_cons]
    have hfk0 : findVal ((k0, v0) :: tl) k0 = some v0 := by
      unfold findVal
      rw [if_pos rfl]
    rw [hfk0]
    show ((k0, v0) :: _) = _
    have hcongr : (keysOf tl).filterMap
        (fun j => (findVal ((k0, v0) :: tl) j).map (fun v => (j, v)))
        = (keysOf tl).filterMap (fun j => (findVal tl j).map (fun v => (j, v))) := by
      apply list_filterMap_congr
      intro j hj
      have : findVal ((k0, v0) :: tl) j = findVal tl j := by
        show (if k0 = j then some v0 else findVal tl j) = findVal tl j
        rw [if_neg (fun hh => h0 (by rw [hh]; exact hj))]
      rw [this]
    rw [hcongr, ih hnd2]

theorem mergeKeyed_self {mv : β → β → β} (hs : ∀ x, mv x x = x)
    (l : List (String × β)) (hsorted : (keysOf l).Sorted (· < ·)) :
    mergeKeyed mv l l = l := by
  unfold mergeKeyed
  rw [Finset.union_self]
  have hnd : (keysOf l).Nodup := hsorted.nodup
  rw [show keysFin l = (keysOf l).toFinset from rfl,
    (List.toFinset_sort _ hnd).2 (hsorted.imp (fun h => le_of_lt h))]
  have hpt : ∀ k ∈ keysOf l,
      (mergeOpt mv (findVal l k) (findVal l k)).map (fun v => (k, v))
        = (findVal l k).map (fun v => (k, v)) := by
    intro k _
    cases hfk : findVal l k <;> simp [mergeOpt, hs _]
  rw [list_filterMap_congr hpt]
  exact filterMap_findVal_self l hnd

theorem mergeCRDT_comm (a b : CRDTR) : mergeCRDT a b = mergeCRDT b a := by
  show CRDTR.mk (max a.clock b.clock) (regMerge a.bid b.bid) (regMerge a.btitle b.btitle)
      (regMerge a.cols b.cols) (mergeKeyed cardMerge a.cards b.cards)
      (mergeKeyed regMerge a.ncs b.ncs)
    = CRDTR.mk (max b.clock a.clock) (regMerge b.bid a.bid) (regMerge b.btitle a.btitle)
      (regMerge b.cols a.cols) (mergeKeyed cardMerge b.cards a.cards)
      (mergeKeyed regMerge b.ncs a.ncs)
  rw [max_comm, regMerge_comm a.bid, regMerge_comm a.btitle, regMerge_comm a.cols,
    mergeKeyed_comm cardMerge_comm, mergeKeyed_comm regMerge_comm]

theorem mergeCRDT_absorb (a b : CRDTR) : mergeCRDT (mergeCRDT a b) b = mergeCRDT a b := by
  show CRDTR.mk (max (max a.clock b.clock) b.clock)
      (regMerge (regMerge a.bid b.bid) b.bid)
      (regMerge (regMerge a.btitle b.btitle) b.btitle)
      (regMerge (regMerge a.cols b.cols) b.cols)
      (mergeKeyed cardMerge (mergeKeyed cardMerge a.cards b.cards) b.cards)
      (mergeKeyed regMerge (mergeKeyed regMerge a.ncs b.ncs) b.ncs)
    = CRDTR.mk (max a.clock b.clock) (regMerge a.bid b.bid) (regMerge a.btitle b.btitle)
      (regMerge a.cols b.cols) (mergeKeyed cardMerge a.cards b.cards)
      (mergeKeyed regMerge a.ncs b.ncs)
  rw [max_assoc, max_self, regMerge_absorb, regMerge_absorb, regMerge_absorb,
    mergeKeyed_absorb cardMerge_absorb cardMerge_self,
    mergeKeyed_absorb regMerge_absorb regMerge_self]

theorem mergeCRDT_self (a : CRDTR) (h : Canonical a) : mergeCRDT a a = a := by
  show CRDTR.mk (max a.clock a.clock) (regMerge a.bid a.bid) (regMerge a.btitle a.btitle)
      (regMerge a.cols a.cols) (mergeKeyed cardMerge a.cards a.cards)
      (mergeKeyed regMerge a.ncs a.ncs)
    = a
  rw [max_self, regMerge_self, regMerge_self, regMerge_self,
    mergeKeyed_self cardMerge_self a.cards h.1, mergeKeyed_self regMerge_self a.ncs h.2]

/-- C6: merge is commutative - for any two replica states `A.merge(B)` and
`B.merge(A)` produce equal states - and idempotent - re-merging an
already-merged remote changes nothing, and merging a canonical replica with
itself changes nothing; `Store.Merge` returns true iff the local replica
state changed, and then installs the merged state. -/
theorem claim_C6 :
    (∀ a b : CRDTR, mergeCRDT a b = mergeCRDT b a) ∧
    (∀ a b : CRDTR, mergeCRDT (mergeCRDT a b) b = mergeCRDT a b) ∧
    (∀ a : CRDTR, Canonical a → mergeCRDT a a = a) ∧
    (∀ (s : StoreM) (other : CRDTR),
       ((s.Merge other).2 = true ↔ partsOf (mergeCRDT s.crdt other) ≠ partsOf s.crdt) ∧
       (s.Merge other).1.crdt
         = (if (s.Merge other).2 = true then mergeCRDT s.crdt other else s.crdt)) := by
  refine ⟨mergeCRDT_comm, mergeCRDT_absorb, mergeCRDT_self, ?_⟩
  intro s other
  unfold StoreM.Merge
  split <;> rename_i hm <;> simp [hm]

theorem claim_C6_witness :
    Canonical (mkCRDT NewInitialBoard "n") ∧
    mergeCRDT (mkCRDT NewInitialBoard "n") (mkCRDT NewInitialBoard "n")
      = mkCRDT NewInitialBoard "n" :=
  ⟨by decide, claim_C6.2.2.1 (mkCRDT NewInitialBoard "n") (by decide)⟩

end Deepboard
